import Mathlib

set_option maxRecDepth 4000
set_option maxHeartbeats 1000000

/-!
Shallow embedding of the MCP sample file server (src/index.ts).

The server exposes six tools over a request/response transport and guards
every path-bearing operation with a `PathValidator`.  We model:

* Node's POSIX `path.resolve` as a lexical normalizer over character lists
  (`resolveL` / `resolveAbs`): resolve against the current working
  directory, collapse `.` and `..` segments, drop duplicate and trailing
  separators.
* JavaScript's `String.prototype.startsWith` as a character-list prefix
  test (`isPre` / `startsWithS`).
* Node's POSIX `path.extname`, `path.dirname` and `toLowerCase` (ASCII).
* `PathValidator.validatePath`, `PathValidator.validateFileExtension`
  and the tool dispatcher with its per-request try/catch.

Filesystem reads are an oracle (`FsOracle`); writes and directory
creations are recorded as an effect trace (`FsEffect`), whose own failure
modes no claim depends on.  Everything is executable.
-/

/-! ## Character-list path machinery -/

/-- Split a character list on the POSIX separator, mirroring
`"…".split("/")`: `[]` yields one empty segment, a separator always
starts a new segment. -/
def chSplit : List Char → List (List Char)
  | [] => [[]]
  | c :: cs =>
    if c = '/' then [] :: chSplit cs
    else
      match chSplit cs with
      | [] => [[c]]
      | s :: ss => (c :: s) :: ss

/-- Join segments with the POSIX separator (inverse of `chSplit` on
separator-free segments). -/
def chJoin : List (List Char) → List Char
  | [] => []
  | s :: ss =>
    match ss with
    | [] => s
    | _ :: _ => s ++ '/' :: chJoin ss

/-- One step of lexical normalization: empty and `.` segments disappear,
`..` pops the previous segment (clamped at the root), anything else is
kept.  This is the segment loop inside Node's `path.posix.resolve`. -/
def normStep (acc : List (List Char)) (seg : List Char) : List (List Char) :=
  if seg = [] ∨ seg = ['.'] then acc
  else if seg = ['.', '.'] then acc.dropLast
  else acc ++ [seg]

/-- Normalize a segment list (left fold of `normStep`). -/
def normSegs (segs : List (List Char)) : List (List Char) :=
  segs.foldl normStep []

/-- Rebuild an absolute path from normalized segments: `/` then the
joined segments (`/` alone for the empty list). -/
def joinAbs (segs : List (List Char)) : List Char :=
  '/' :: chJoin segs

/-- Does the character list denote an absolute POSIX path? -/
def isAbsL : List Char → Bool
  | [] => false
  | c :: _ => c = '/'

/-- Node's POSIX `path.resolve(cwd, p)` on character lists: prepend the
working directory when `p` is relative, then normalize lexically. -/
def resolveL (cwd p : List Char) : List Char :=
  joinAbs (normSegs (chSplit (if isAbsL p then p else cwd ++ '/' :: p)))

/-- Node's POSIX `path.resolve` against a working directory, on strings.
`path.resolve(x)` inside the validator is `resolveAbs cwd x`. -/
def resolveAbs (cwd p : String) : String :=
  String.mk (resolveL cwd.data p.data)

/-- Character-list prefix test; `isPre a b` is true iff `a` is a prefix
of `b`.  Models JavaScript `b.startsWith(a)` (which `validatePath` uses
for both the deny-list and the allow-list containment checks). -/
def isPre : List Char → List Char → Bool
  | [], _ => true
  | _ :: _, [] => false
  | a :: as, b :: bs => a = b && isPre as bs

/-- `startsWithS s t` models the JavaScript call `s.startsWith(t)`. -/
def startsWithS (s t : String) : Bool :=
  isPre t.data s.data

/-! ## PathValidator -/

/-- The validator's immutable configuration (the three arrays filled in
by the `PathValidator` constructor). -/
structure Config where
  allowedPaths : List String
  blockedPaths : List String
  allowedExtensions : List String
deriving DecidableEq

/-- The configuration the constructor actually builds, as a function of
`os.homedir()`:  one allowed root `<home>/Documents/00_AI_Area`, the
fixed deny list, and the 21 allowed extensions (all lowercase). -/
def defaultConfig (home : String) : Config :=
  { allowedPaths := [resolveAbs home "Documents/00_AI_Area"]
    blockedPaths :=
      ["/etc", "/bin", "/sbin", "/usr/bin", "/usr/sbin", "/System",
       "/Windows", "/Program Files", "/Program Files (x86)",
       resolveAbs home ".ssh", resolveAbs home ".aws",
       resolveAbs home ".config"]
    allowedExtensions :=
      [".txt", ".md", ".json", ".js", ".ts", ".html", ".css",
       ".py", ".java", ".cpp", ".c", ".h", ".xml", ".yaml", ".yml",
       ".log", ".csv", ".tsv", ".sql", ".sh", ".bat", ".ps1"] }

/-- Result of `validatePath`: `isValid`, the normalized path, and the
optional error message. -/
structure ValidationResult where
  isValid : Bool
  normalizedPath : String
  error : Option String
deriving DecidableEq

/-- Deny-list message `アクセスが禁止されているディレクトリです: ${blockedPath}`
(the unresolved deny-list entry is interpolated). -/
def blockedMsg (blockedPath : String) : String :=
  "アクセスが禁止されているディレクトリです: " ++ blockedPath

/-- Allow-list failure message listing the allowed paths. -/
def notAllowedMsg (cfg : Config) : String :=
  "許可されていないパスです。アクセス可能なパス: " ++ String.intercalate ", " cfg.allowedPaths

/-- `PathValidator.validatePath`: normalize the input with
`path.resolve`, deny when the normalized path `startsWith` a (resolved)
deny-list entry — first match wins — and otherwise allow exactly when it
`startsWith` some allow-list entry.  Both containment checks are raw
string prefix tests, exactly as in the source.  (`path.resolve` cannot
throw on a string argument, so the source's catch branch is dead here;
the `undefined` case is modeled at the dispatcher boundary.) -/
def validatePath (cfg : Config) (cwd : String) (inputPath : String) : ValidationResult :=
  match cfg.blockedPaths.find?
      (fun blockedPath => startsWithS (resolveAbs cwd inputPath) (resolveAbs cwd blockedPath)) with
  | some blockedPath =>
      ⟨false, resolveAbs cwd inputPath, some (blockedMsg blockedPath)⟩
  | none =>
      if cfg.allowedPaths.any
          (fun allowedPath => startsWithS (resolveAbs cwd inputPath) allowedPath) then
        ⟨true, resolveAbs cwd inputPath, none⟩
      else
        ⟨false, resolveAbs cwd inputPath, some (notAllowedMsg cfg)⟩

/-! ## path.extname, toLowerCase, validateFileExtension -/

/-- Drop trailing separators (Node's `extname` ignores them). -/
def stripTrailingSlashes (l : List Char) : List Char :=
  (l.reverse.dropWhile (fun c => c = '/')).reverse

/-- The final path segment (characters after the last separator). -/
def afterLastSlash (l : List Char) : List Char :=
  (l.reverse.takeWhile (fun c => c ≠ '/')).reverse

/-- Extension characters of a basename, following Node's `path.extname`:
everything from the last dot on, except that a lone leading dot
(dotfile), a dotless name, and the special name `..` give no
extension. -/
def extSplit (b : List Char) : List Char :=
  if b = ['.', '.'] then []
  else
    match (b.reverse.dropWhile (fun c => c ≠ '.')).reverse with
    | [] => []
    | [_] => []
    | _ :: _ :: _ => '.' :: (b.reverse.takeWhile (fun c => c ≠ '.')).reverse

/-- Node's POSIX `path.extname`. -/
def extname (p : String) : String :=
  String.mk (extSplit (afterLastSlash (stripTrailingSlashes p.data)))

/-- JavaScript `toLowerCase`, restricted to its ASCII action (the only
case the extension check exercises). -/
def toLowerStr (s : String) : String :=
  String.mk (s.data.map Char.toLower)

/-- Result of `validateFileExtension`. -/
structure ExtValidationResult where
  isValid : Bool
  error : Option String
deriving DecidableEq

/-- Extension rejection message naming the (lowercased) extension. -/
def extMsg (cfg : Config) (ext : String) : String :=
  "許可されていないファイル拡張子です: " ++ ext ++ "。許可されている拡張子: " ++
    String.intercalate ", " cfg.allowedExtensions

/-- `PathValidator.validateFileExtension`: lowercase the `path.extname`
of the input; deny iff it is non-empty and not in the allowed list. -/
def validateFileExtension (cfg : Config) (filepath : String) : ExtValidationResult :=
  if toLowerStr (extname filepath) ≠ "" ∧
      toLowerStr (extname filepath) ∉ cfg.allowedExtensions then
    ⟨false, some (extMsg cfg (toLowerStr (extname filepath)))⟩
  else
    ⟨true, none⟩

/-- `PathValidator.getAllowedPaths` (defensive copy of the allow list). -/
def getAllowedPaths (cfg : Config) : List String :=
  cfg.allowedPaths

/-- The spec's component-aligned containment: the resolved path equals
the root, or starts with the root followed by the separator.  This is
the containment relation the specification prescribes for both lists
(§4.1 steps 2–3, §9); it is compared against the source's raw
`startsWith` checks. -/
def specAligned (root p : String) : Bool :=
  p == root || startsWithS p (root ++ "/")

/-! ## path.dirname (POSIX) -/

/-- Helper for `dirname`: scan the reversed character list from index
`len - 1` down to `1`, skipping trailing separators, and return the
index of the separator that ends the parent part (Node's `end`). -/
def dirnameScan : List Char → Bool → Nat → Option Nat
  | [], _, _ => none
  | c :: rest, matchedSlash, i =>
    if i = 0 then none
    else if c = '/' then
      if matchedSlash then dirnameScan rest matchedSlash (i - 1) else some i
    else dirnameScan rest false (i - 1)

/-- Node's POSIX `path.dirname` (used on the normalized path before
`fs.mkdir` in `write_file`). -/
def dirname (p : String) : String :=
  if p.data = [] then "."
  else
    let hasRoot := p.data.head? = some '/'
    match dirnameScan p.data.reverse true (p.data.length - 1) with
    | none => if hasRoot then "/" else "."
    | some e => if hasRoot ∧ e = 1 then "//" else String.mk (p.data.take e)

/-! ## Environment, results, effects -/

/-- The host environment the server reads: the working directory plus
everything `os` / `process` / `Date` provide.  Memory and uptime are
modeled as exact naturals (bytes and whole seconds). -/
structure Env where
  cwd : String
  nowString : String
  nodeVersion : String
  platform : String
  arch : String
  release : String
  hostname : String
  uptimeSeconds : Nat
  totalmem : Nat
  freemem : Nat
  cpusCount : Nat
  homeDir : String
  tmpDir : String
deriving DecidableEq

/-- One `{ type: "text", text: … }` content block. -/
structure TextContent where
  type : String
  text : String
deriving DecidableEq

/-- The MCP tool result envelope `{ content, isError }`. -/
structure CallToolResult where
  content : List TextContent
  isError : Bool
deriving DecidableEq

/-- Single-text result envelope. -/
def textResult (s : String) (err : Bool) : CallToolResult :=
  ⟨[⟨"text", s⟩], err⟩

/-- A mutating filesystem request issued by an operation, in order. -/
inductive FsEffect where
  | mkdirRecursive (dir : String)
  | writeFileFs (filepath : String) (content : String)
deriving DecidableEq

/-- Read-only filesystem oracle: `fs.readFile` (UTF-8 text) and
`fs.readdir` with `withFileTypes` (name, isDirectory), either of which
may fail with a stringified error. -/
structure FsOracle where
  readF : String → Except String String
  listF : String → Except String (List (String × Bool))

/-- Models `args.x as string` handing `undefined` to `validatePath`:
there `path.resolve` throws a `TypeError`, which the validator's catch
turns into the `無効なパス` result. -/
def validatePathArg (cfg : Config) (cwd : String) : Option String → ValidationResult
  | some p => validatePath cfg cwd p
  | none =>
      ⟨false, "undefined",
        some "無効なパスです: TypeError: The \"path\" argument must be of type string. Received undefined"⟩

/-! ## Tool operations -/

/-- `SimpleMCPServer.readFile`: validate the path, then the extension of
the normalized path, then read; the method-level catch wraps any failure
(a thrown validation `Error` stringifies as `Error: …`, a filesystem
error keeps the oracle's stringification) in
`ファイルの読み込みに失敗: `.  No mutating effects. -/
def readFileOp (cfg : Config) (env : Env) (fsRead : String → Except String String)
    (filepath : Option String) : Except String CallToolResult :=
  let inner : Except String CallToolResult :=
    let pv := validatePathArg cfg env.cwd filepath
    if pv.isValid = false then
      Except.error ("Error: " ++ pv.error.getD "undefined")
    else
      let ev := validateFileExtension cfg pv.normalizedPath
      if ev.isValid = false then
        Except.error ("Error: " ++ ev.error.getD "undefined")
      else
        match fsRead pv.normalizedPath with
        | Except.error e => Except.error e
        | Except.ok content =>
            Except.ok (textResult
              ("ファイル \"" ++ pv.normalizedPath ++ "\" の内容:\n\n" ++ content) false)
  match inner with
  | Except.ok r => Except.ok r
  | Except.error e => Except.error ("ファイルの読み込みに失敗: " ++ e)

/-- `SimpleMCPServer.writeFile`: validate path and extension, then
`fs.mkdir(dirname, { recursive: true })` and `fs.writeFile`; failures
are wrapped in `ファイルの書き込みに失敗: `.  The effect trace records the
mutating requests actually issued (an `undefined` content makes
`fs.writeFile` throw after the mkdir). -/
def writeFileOp (cfg : Config) (env : Env) (filepath content : Option String) :
    Except String CallToolResult × List FsEffect :=
  let pv := validatePathArg cfg env.cwd filepath
  if pv.isValid = false then
    (Except.error ("ファイルの書き込みに失敗: Error: " ++ pv.error.getD "undefined"), [])
  else
    let ev := validateFileExtension cfg pv.normalizedPath
    if ev.isValid = false then
      (Except.error ("ファイルの書き込みに失敗: Error: " ++ ev.error.getD "undefined"), [])
    else
      match content with
      | none =>
          (Except.error
            "ファイルの書き込みに失敗: TypeError: The \"data\" argument must be of type string or an instance of Buffer, TypedArray, or DataView. Received undefined",
           [FsEffect.mkdirRecursive (dirname pv.normalizedPath)])
      | some c =>
          (Except.ok (textResult
              ("ファイル \"" ++ pv.normalizedPath ++ "\" に正常に書き込みました") false),
           [FsEffect.mkdirRecursive (dirname pv.normalizedPath),
            FsEffect.writeFileFs pv.normalizedPath c])

/-- `SimpleMCPServer.listDirectory`: validate the path only, list the
entries tagged as directory or file; failures are wrapped in
`ディレクトリの一覧取得に失敗: `. -/
def listDirectoryOp (cfg : Config) (env : Env)
    (fsList : String → Except String (List (String × Bool)))
    (dirpath : Option String) : Except String CallToolResult :=
  let inner : Except String CallToolResult :=
    let pv := validatePathArg cfg env.cwd dirpath
    if pv.isValid = false then
      Except.error ("Error: " ++ pv.error.getD "undefined")
    else
      match fsList pv.normalizedPath with
      | Except.error e => Except.error e
      | Except.ok items =>
          Except.ok (textResult
            ("ディレクトリ \"" ++ pv.normalizedPath ++ "\" の内容:\n\n" ++
              String.intercalate "\n"
                (items.map (fun it => (if it.2 then "📁" else "📄") ++ " " ++ it.1))) false)
  match inner with
  | Except.ok r => Except.ok r
  | Except.error e => Except.error ("ディレクトリの一覧取得に失敗: " ++ e)

/-- One gibibyte (the divisor `1024 / 1024 / 1024` of `getSystemInfo`). -/
def gib : Nat := 1024 * 1024 * 1024

/-- JavaScript `Math.round(x / d)` on exact nonnegative rationals:
the nearest integer, ties rounding up. -/
def mathRoundDiv (x d : Nat) : Nat :=
  (2 * x + d) / (2 * d)

/-- The record `getSystemInfo` assembles. -/
structure SystemInfo where
  platform : String
  arch : String
  release : String
  hostname : String
  uptimeHours : Nat
  totalGB : Nat
  freeGB : Nat
  cpus : Nat
  homeDir : String
  tmpDir : String
deriving DecidableEq

/-- The `info` object of `SimpleMCPServer.getSystemInfo`:
`Math.floor(os.uptime() / 3600)` hours and `Math.round(bytes / 2^30)`
gigabytes. -/
def systemInfo (env : Env) : SystemInfo :=
  { platform := env.platform
    arch := env.arch
    release := env.release
    hostname := env.hostname
    uptimeHours := env.uptimeSeconds / 3600
    totalGB := mathRoundDiv env.totalmem gib
    freeGB := mathRoundDiv env.freemem gib
    cpus := env.cpusCount
    homeDir := env.homeDir
    tmpDir := env.tmpDir }

/-- `JSON.stringify(info, null, 2)` for the system-info record. -/
def renderSystemInfo (i : SystemInfo) : String :=
  "\x7b\n  \"platform\": \"" ++ i.platform ++
  "\",\n  \"arch\": \"" ++ i.arch ++
  "\",\n  \"release\": \"" ++ i.release ++
  "\",\n  \"hostname\": \"" ++ i.hostname ++
  "\",\n  \"uptime\": \"" ++ toString i.uptimeHours ++
  "時間\",\n  \"memory\": \x7b\n    \"total\": \"" ++ toString i.totalGB ++
  "GB\",\n    \"free\": \"" ++ toString i.freeGB ++
  "GB\"\n  \x7d,\n  \"cpus\": " ++ toString i.cpus ++
  ",\n  \"homeDir\": \"" ++ i.homeDir ++
  "\",\n  \"tmpDir\": \"" ++ i.tmpDir ++ "\"\n\x7d"

/-- `SimpleMCPServer.getSystemInfo`: a pure read of the host
environment; no path, no validator, no filesystem mutation. -/
def getSystemInfoOp (env : Env) : Except String CallToolResult :=
  Except.ok (textResult ("システム情報:\n\n" ++ renderSystemInfo (systemInfo env)) false)

/-- `filename || "sample.txt"`: JavaScript defaults on `undefined` and
on the (falsy) empty string. -/
def sampleNameOf : Option String → String
  | none => "sample.txt"
  | some f => if f = "" then "sample.txt" else f

/-- The template `createSampleFile` writes (timestamp and environment
fields interpolated). -/
def sampleContent (env : Env) : String :=
  "# サンプルファイル\n\n作成日時: " ++ env.nowString ++
  "\n\nこれは MCP サーバによって作成されたサンプルファイルです。\n\n## 内容\n- MCP (Model Context Protocol) のテスト\n- ClaudeDesktop との連携確認\n- ファイル操作の動作確認\n- セキュリティ制限付きパスアクセス\n\n## システム情報\n- Node.js バージョン: " ++
  env.nodeVersion ++ "\n- プラットフォーム: " ++ env.platform ++
  "\n- アーキテクチャ: " ++ env.arch ++
  "\n\n## セキュリティ設定\n- パスアクセス制限: 有効\n- 許可されたディレクトリのみアクセス可能\n\nHappy coding! 🚀\n"

/-- `SimpleMCPServer.createSampleFile`: default the filename, resolve it
against the working directory, validate the path (no extension check),
write the template, and echo the written content in the result. -/
def createSampleFileOp (cfg : Config) (env : Env) (filename : Option String) :
    Except String CallToolResult × List FsEffect :=
  let fullPath := resolveAbs env.cwd (sampleNameOf filename)
  let pv := validatePath cfg env.cwd fullPath
  if pv.isValid = false then
    (Except.error ("サンプルファイルの作成に失敗: Error: " ++ pv.error.getD "undefined"), [])
  else
    (Except.ok (textResult
        ("サンプルファイル \"" ++ pv.normalizedPath ++ "\" を作成しました！\n\n内容:\n" ++
          sampleContent env) false),
     [FsEffect.writeFileFs pv.normalizedPath (sampleContent env)])

/-- `SimpleMCPServer.getAllowedPaths`: display the allow list. -/
def getAllowedPathsOp (cfg : Config) : Except String CallToolResult :=
  Except.ok (textResult
    ("アクセス可能なパス一覧:\n\n" ++
      String.intercalate "\n" ((getAllowedPaths cfg).map (fun p => "📁 " ++ p)) ++
      "\n\n注意: これらのディレクトリとそのサブディレクトリのみアクセス可能です。") false)

/-! ## Dispatcher -/

/-- The names of the six registered tools (the `TOOLS` catalog). -/
def toolNames : List String :=
  ["read_file", "write_file", "list_directory", "get_system_info",
   "create_sample_file", "get_allowed_paths"]

/-- The raw arguments of a tool call (each field `undefined` or a
string, as delivered by `args.x as string`). -/
structure ToolArgs where
  filepath : Option String := none
  content : Option String := none
  dirpath : Option String := none
  filename : Option String := none
deriving DecidableEq

/-- The `switch` inside the CallTool handler: route to an operation or
throw `Unknown tool: ${name}`; the `Except` layer carries whatever a
method throws, alongside the effects performed before the throw. -/
def dispatchTool (cfg : Config) (env : Env) (fs : FsOracle) (name : String)
    (args : ToolArgs) : Except String CallToolResult × List FsEffect :=
  if name = "read_file" then (readFileOp cfg env fs.readF args.filepath, [])
  else if name = "write_file" then writeFileOp cfg env args.filepath args.content
  else if name = "list_directory" then (listDirectoryOp cfg env fs.listF args.dirpath, [])
  else if name = "get_system_info" then (getSystemInfoOp env, [])
  else if name = "create_sample_file" then createSampleFileOp cfg env args.filename
  else if name = "get_allowed_paths" then (getAllowedPathsOp cfg, [])
  else (Except.error ("Unknown tool: " ++ name), [])

/-- The CallTool request handler: reject missing arguments, run the
switch inside try/catch, and convert any thrown error into an
`isError: true` envelope.  Total by construction — every request yields
a response, so the loop can serve the next one. -/
def handleCallTool (cfg : Config) (env : Env) (fs : FsOracle) (name : String)
    (args : Option ToolArgs) : CallToolResult × List FsEffect :=
  match args with
  | none => (textResult "Error: No arguments provided" true, [])
  | some a =>
      match dispatchTool cfg env fs name a with
      | (Except.ok r, effs) => (r, effs)
      | (Except.error e, effs) => (textResult ("Error: " ++ e) true, effs)

/-! ## Lemmas about the path model -/

/-- Segments produced by `chSplit` never contain the separator. -/
theorem mem_chSplit_no_slash : ∀ (l : List Char), ∀ x ∈ chSplit l, '/' ∉ x := by
  intro l
  induction l with
  | nil =>
    intro x hx
    rw [chSplit] at hx
    rw [List.mem_singleton] at hx
    subst hx
    exact List.not_mem_nil '/'
  | cons c cs ih =>
    intro x hx
    rw [chSplit] at hx
    by_cases hc : c = '/'
    · rw [if_pos hc] at hx
      rcases List.mem_cons.mp hx with h | h
      · subst h; exact List.not_mem_nil '/'
      · exact ih x h
    · rw [if_neg hc] at hx
      cases hsp : chSplit cs with
      | nil =>
        rw [hsp] at hx
        rw [List.mem_singleton] at hx
        subst hx
        intro hm
        rcases List.mem_cons.mp hm with h | h
        · exact hc h.symm
        · exact List.not_mem_nil '/' h
      | cons s ss =>
        rw [hsp] at hx
        rcases List.mem_cons.mp hx with h | h
        · subst h
          intro hm
          rcases List.mem_cons.mp hm with h | h
          · exact hc h.symm
          · exact ih s (hsp ▸ List.mem_cons_self s ss) h
        · exact ih x (hsp ▸ List.mem_cons_of_mem s h)

/-- `chSplit` of a separator-free list is that single segment. -/
theorem chSplit_of_no_slash : ∀ (a : List Char), '/' ∉ a → chSplit a = [a] := by
  intro a
  induction a with
  | nil => intro _; rfl
  | cons c cs ih =>
    intro h
    have hc : ¬ c = '/' := by rintro rfl; exact h (List.mem_cons_self _ _)
    rw [chSplit, if_neg hc, ih (fun hm => h (List.mem_cons_of_mem c hm))]

/-- Splitting after a separator-free head segment. -/
theorem chSplit_append (a r : List Char) (h : '/' ∉ a) :
    chSplit (a ++ '/' :: r) = a :: chSplit r := by
  induction a with
  | nil => simp [chSplit]
  | cons c cs ih =>
    have hc : ¬ c = '/' := by rintro rfl; exact h (List.mem_cons_self _ _)
    rw [List.cons_append, chSplit, if_neg hc,
      ih (fun hm => h (List.mem_cons_of_mem c hm))]

/-- `chSplit` undoes `chJoin` on nonempty separator-free segment lists. -/
theorem chSplit_chJoin : ∀ (L : List (List Char)), L ≠ [] → (∀ x ∈ L, '/' ∉ x) →
    chSplit (chJoin L) = L := by
  intro L
  induction L with
  | nil => intro h _; exact absurd rfl h
  | cons s ss ih =>
    intro _ h
    cases ss with
    | nil =>
      rw [chJoin]
      exact chSplit_of_no_slash s (h s (List.mem_cons_self _ _))
    | cons t ts =>
      rw [chJoin, chSplit_append s _ (h s (List.mem_cons_self _ _)),
        ih (by simp) (fun y hy => h y (List.mem_cons_of_mem s hy))]

/-- A segment surviving normalization: nonempty, not `.`, not `..`,
separator-free. -/
def goodSeg (seg : List Char) : Prop :=
  seg ≠ [] ∧ seg ≠ ['.'] ∧ seg ≠ ['.', '.'] ∧ '/' ∉ seg

/-- `normStep` preserves goodness of the accumulator. -/
theorem normStep_good (acc : List (List Char)) (seg : List Char)
    (hacc : ∀ x ∈ acc, goodSeg x) (hseg : '/' ∉ seg) :
    ∀ x ∈ normStep acc seg, goodSeg x := by
  intro x hx
  by_cases h1 : seg = [] ∨ seg = ['.']
  · rw [normStep, if_pos h1] at hx
    exact hacc x hx
  · by_cases h2 : seg = ['.', '.']
    · rw [normStep, if_neg h1, if_pos h2] at hx
      exact hacc x (List.dropLast_subset acc hx)
    · rw [normStep, if_neg h1, if_neg h2] at hx
      rcases List.mem_append.mp hx with h | h
      · exact hacc x h
      · rw [List.mem_singleton] at h
        subst h
        push_neg at h1
        exact ⟨h1.1, h1.2, h2, hseg⟩
/-- All segments of a normalized segment list are good. -/
theorem foldl_normStep_good : ∀ (segs : List (List Char)) (acc : List (List Char)),
    (∀ x ∈ acc, goodSeg x) → (∀ x ∈ segs, '/' ∉ x) →
    ∀ x ∈ segs.foldl normStep acc, goodSeg x := by
  intro segs
  induction segs with
  | nil => intro acc hacc _ x hx; exact hacc x hx
  | cons s ss ih =>
    intro acc hacc hss x hx
    exact ih (normStep acc s)
      (normStep_good acc s hacc (hss s (List.mem_cons_self s ss)))
      (fun y hy => hss y (List.mem_cons_of_mem s hy)) x hx

/-- All segments `normSegs` returns are good. -/
theorem normSegs_good (segs : List (List Char)) (h : ∀ x ∈ segs, '/' ∉ x) :
    ∀ x ∈ normSegs segs, goodSeg x :=
  foldl_normStep_good segs [] (by intro x hx; exact absurd hx (List.not_mem_nil x)) h

/-- `normStep` keeps a good segment. -/
theorem normStep_plain (acc : List (List Char)) (seg : List Char) (h : goodSeg seg) :
    normStep acc seg = acc ++ [seg] := by
  rcases h with ⟨h1, h2, h3, _⟩
  rw [normStep, if_neg (by simp [h1, h2]), if_neg h3]

/-- Normalizing a list of good segments changes nothing. -/
theorem foldl_normStep_plain : ∀ (segs : List (List Char)),
    (∀ x ∈ segs, goodSeg x) → ∀ acc, segs.foldl normStep acc = acc ++ segs := by
  intro segs
  induction segs with
  | nil => intro _ acc; simp
  | cons s ss ih =>
    intro h acc
    rw [List.foldl_cons, normStep_plain acc s (h s (List.mem_cons_self s ss)),
      ih (fun y hy => h y (List.mem_cons_of_mem s hy)) (acc ++ [s])]
    simp

/-- Re-splitting and re-normalizing an already normalized absolute path
is the identity on its segments. -/
theorem normSegs_chSplit_joinAbs (M : List (List Char)) (hM : ∀ x ∈ M, goodSeg x) :
    normSegs (chSplit (joinAbs M)) = M := by
  cases M with
  | nil => rfl
  | cons s ss =>
    rw [joinAbs, chSplit, if_pos rfl,
      chSplit_chJoin (s :: ss) (by simp) (fun y hy => (hM y hy).2.2.2),
      normSegs, List.foldl_cons]
    have h0 : normStep [] [] = [] := rfl
    rw [h0, foldl_normStep_plain (s :: ss) hM []]
    simp

/-- `path.resolve` is idempotent: resolving an already resolved path
(under any working directory) returns it unchanged. -/
theorem resolveL_of_resolveL (cwd1 cwd2 p : List Char) :
    resolveL cwd1 (resolveL cwd2 p) = resolveL cwd2 p := by
  have h1 : resolveL cwd1 (resolveL cwd2 p)
      = joinAbs (normSegs (chSplit (joinAbs (normSegs
          (chSplit (if isAbsL p then p else cwd2 ++ '/' :: p)))))) := rfl
  rw [h1, normSegs_chSplit_joinAbs _
    (normSegs_good _ (fun x hx => mem_chSplit_no_slash _ x hx))]
  rfl

/-- String version of `resolveL_of_resolveL`. -/
theorem resolveAbs_of_resolveAbs (cwd1 cwd2 p : String) :
    resolveAbs cwd1 (resolveAbs cwd2 p) = resolveAbs cwd2 p := by
  rw [resolveAbs, resolveAbs]
  exact congrArg String.mk (resolveL_of_resolveL cwd1.data cwd2.data p.data)

/-- A list is a prefix of itself extended by anything. -/
theorem isPre_append (a r : List Char) : isPre a (a ++ r) = true := by
  induction a with
  | nil => rfl
  | cons c cs ih => simp [isPre, ih]

/-- Prefix transitivity for `isPre`. -/
theorem isPre_trans : ∀ (a b c : List Char),
    isPre a b = true → isPre b c = true → isPre a c = true := by
  intro a
  induction a with
  | nil => intro b c _ _; rfl
  | cons x xs ih =>
    intro b c hab hbc
    cases b with
    | nil => simp [isPre] at hab
    | cons y ys =>
      cases c with
      | nil => simp [isPre] at hbc
      | cons z zs =>
        rw [isPre, Bool.and_eq_true] at hab hbc ⊢
        have exy : x = y := of_decide_eq_true hab.1
        have eyz : y = z := of_decide_eq_true hbc.1
        exact ⟨decide_eq_true (exy.trans eyz), ih ys zs hab.2 hbc.2⟩

/-- The spec's component-aligned containment implies the raw
`startsWith` containment the code checks. -/
theorem startsWithS_of_specAligned (root p : String) (h : specAligned root p = true) :
    startsWithS p root = true := by
  rw [specAligned, Bool.or_eq_true] at h
  rcases h with h | h
  · have hpr : p = root := eq_of_beq h
    rw [startsWithS, hpr]
    have := isPre_append root.data []
    rwa [List.append_nil] at this
  · rw [startsWithS] at h ⊢
    have hd : (root ++ "/").data = root.data ++ ['/'] := rfl
    rw [hd] at h
    exact isPre_trans _ _ _ (isPre_append root.data ['/']) h

/-- The normalized path reported by `validatePath` is always the
`path.resolve` of the input, whatever the verdict. -/
theorem validatePath_normalizedPath (cfg : Config) (cwd p : String) :
    (validatePath cfg cwd p).normalizedPath = resolveAbs cwd p := by
  unfold validatePath
  cases hfind : cfg.blockedPaths.find?
      (fun blockedPath => startsWithS (resolveAbs cwd p) (resolveAbs cwd blockedPath)) with
  | some b => rfl
  | none =>
    by_cases hany : cfg.allowedPaths.any
        (fun allowedPath => startsWithS (resolveAbs cwd p) allowedPath) = true
    · rw [if_pos hany]
    · rw [if_neg hany]

/-- Lowercasing is empty exactly on the empty string. -/
theorem toLowerStr_eq_empty (s : String) : toLowerStr s = "" ↔ s = "" := by
  constructor
  · intro h
    have h1 : (toLowerStr s).data = [] := by rw [h]
    have h2 : s.data.map Char.toLower = [] := h1
    have h3 : s.data = [] := List.map_eq_nil_iff.mp h2
    have h4 : s = String.mk s.data := rfl
    rw [h4, h3]
  · intro h
    rw [h]
    rfl

/-! ## Shared concrete instances for witnesses -/

/-- A concrete host environment used by the witnesses. -/
def envW : Env :=
  { cwd := "/home/user", nowString := "2026/10/12 12:00:00",
    nodeVersion := "v20.11.1", platform := "linux", arch := "x64",
    release := "6.1.0", hostname := "devbox", uptimeSeconds := 7300,
    totalmem := 8589934592, freemem := 2147483648, cpusCount := 8,
    homeDir := "/home/user", tmpDir := "/tmp" }

/-- A concrete filesystem oracle whose reads fail with a not-found
error. -/
def fsW : FsOracle :=
  { readF := fun _ => Except.error "Error: ENOENT: no such file or directory",
    listF := fun _ => Except.ok [] }

/-! ## Claim theorems -/

/-- Claim C1 (code_bug evaluation).  The claim says every input whose
resolved path is not component-aligned under an allowed root is Denied,
naming `/sandboxed` vs `/sandbox` as the attack.  The code's allow check
is a raw `startsWith`, so with the configured allow root
`<home>/Documents/00_AI_Area` the sibling directory
`.../00_AI_AreaX/leak.txt` — not component-aligned under any allowed
root — is nevertheless Allowed.  This theorem evaluates `validatePath`
at that failing input. -/
theorem validatePath_raw_startsWith_escape :
    (validatePath (defaultConfig "/home/user") "/home/user"
        "/home/user/Documents/00_AI_AreaX/leak.txt").isValid = true
    ∧ (validatePath (defaultConfig "/home/user") "/home/user"
        "/home/user/Documents/00_AI_AreaX/leak.txt").normalizedPath
        = "/home/user/Documents/00_AI_AreaX/leak.txt"
    ∧ (defaultConfig "/home/user").allowedPaths = ["/home/user/Documents/00_AI_Area"]
    ∧ specAligned "/home/user/Documents/00_AI_Area"
        "/home/user/Documents/00_AI_AreaX/leak.txt" = false := by
  decide

/-- Claim C2 (code_bug evaluation).  The claim says the deny-list
Denied outcome occurs iff the resolved path is component-aligned under a
blocked root, and that a raw-prefix sibling such as `/etcetera` against
`/etc` is not deny-list Denied.  The code's deny check is a raw
`startsWith`, so `/etcetera/notes.txt` is Denied with the
forbidden-directory message naming `/etc`, although it is not
component-aligned under `/etc`. -/
theorem validatePath_denylist_raw_overmatch :
    (validatePath (defaultConfig "/home/user") "/home/user"
        "/etcetera/notes.txt").isValid = false
    ∧ (validatePath (defaultConfig "/home/user") "/home/user"
        "/etcetera/notes.txt").error = some (blockedMsg "/etc")
    ∧ "/etc" ∈ (defaultConfig "/home/user").blockedPaths
    ∧ specAligned "/etc" (resolveAbs "/home/user" "/etcetera/notes.txt") = false := by
  decide

/-- Claim C3: deny wins over allow.  If the resolved input lies
(component-aligned) under some resolved blocked root, `validatePath`
denies it, whatever the allow list contains: the deny loop runs first
and a component-aligned match implies a raw `startsWith` match, so
`find?` fires on some deny entry and short-circuits the allow check. -/
theorem validatePath_deny_precedence (cfg : Config) (cwd p b : String)
    (hb : b ∈ cfg.blockedPaths)
    (hunder : specAligned (resolveAbs cwd b) (resolveAbs cwd p) = true) :
    (validatePath cfg cwd p).isValid = false := by
  have hsw : startsWithS (resolveAbs cwd p) (resolveAbs cwd b) = true :=
    startsWithS_of_specAligned _ _ hunder
  unfold validatePath
  cases hfind : cfg.blockedPaths.find?
      (fun blockedPath => startsWithS (resolveAbs cwd p) (resolveAbs cwd blockedPath)) with
  | some x => rfl
  | none =>
    exfalso
    have hnone := List.find?_eq_none.mp hfind b hb
    exact hnone hsw

/-- Witness for C3: the spec's own scenario — allow `/sandbox`, block
`/sandbox/.secret` — where `/sandbox/.secret/x.txt` lies under both and
is Denied. -/
theorem validatePath_deny_precedence_witness :
    (validatePath ⟨["/sandbox"], ["/sandbox/.secret"], []⟩ "/"
        "/sandbox/.secret/x.txt").isValid = false :=
  validatePath_deny_precedence _ _ _ "/sandbox/.secret" (by decide) (by decide)

/-- Claim C4: `validatePath` is idempotent.  Validating the
`normalizedPath` of any Allowed result reproduces the very same Allowed
result, because `path.resolve` is idempotent and both containment checks
depend only on the resolved path. -/
theorem validatePath_idempotent (cfg : Config) (cwd p : String)
    (h : (validatePath cfg cwd p).isValid = true) :
    validatePath cfg cwd (validatePath cfg cwd p).normalizedPath
      = validatePath cfg cwd p := by
  rw [validatePath_normalizedPath]
  cases hfind : cfg.blockedPaths.find?
      (fun blockedPath => startsWithS (resolveAbs cwd p) (resolveAbs cwd blockedPath)) with
  | some x =>
    exfalso
    unfold validatePath at h
    rw [hfind] at h
    exact absurd h (by simp)
  | none =>
    cases hany : cfg.allowedPaths.any
        (fun allowedPath => startsWithS (resolveAbs cwd p) allowedPath) with
    | false =>
      exfalso
      unfold validatePath at h
      rw [hfind] at h
      rw [hany] at h
      simp at h
    | true =>
      have hv : validatePath cfg cwd p = ⟨true, resolveAbs cwd p, none⟩ := by
        unfold validatePath
        rw [hfind, hany]
        simp
      rw [hv]
      unfold validatePath
      simp only [resolveAbs_of_resolveAbs]
      rw [hfind, hany]
      simp

/-- Witness for C4 at the configured sandbox root. -/
theorem validatePath_idempotent_witness :
    validatePath (defaultConfig "/home/user") "/home/user"
        (validatePath (defaultConfig "/home/user") "/home/user"
          "Documents/00_AI_Area/a.txt").normalizedPath
      = validatePath (defaultConfig "/home/user") "/home/user"
          "Documents/00_AI_Area/a.txt" :=
  validatePath_idempotent _ _ _ (by decide)

/-- Claim C5: `validateFileExtension` accepts exactly the paths whose
final segment has no extension or whose extension is a case-insensitive
member of the allowed list (here stated for any configuration whose
allowed extensions are lowercase, as the configured ones are), and on
rejection its error names the lowercased rejected extension. -/
theorem validateFileExtension_correct (cfg : Config) (p : String)
    (hlc : ∀ e ∈ cfg.allowedExtensions, toLowerStr e = e) :
    ((validateFileExtension cfg p).isValid = true ↔
      (extname p = "" ∨ ∃ e ∈ cfg.allowedExtensions,
        toLowerStr (extname p) = toLowerStr e))
    ∧ ((validateFileExtension cfg p).isValid = false →
      (validateFileExtension cfg p).error
        = some (extMsg cfg (toLowerStr (extname p)))) := by
  by_cases hc : toLowerStr (extname p) ≠ "" ∧
      toLowerStr (extname p) ∉ cfg.allowedExtensions
  · have hval : validateFileExtension cfg p
        = ⟨false, some (extMsg cfg (toLowerStr (extname p)))⟩ := by
      unfold validateFileExtension
      rw [if_pos hc]
    rw [hval]
    constructor
    · constructor
      · intro h; exact absurd h (by simp)
      · intro h
        exfalso
        rcases h with h | ⟨e, he, heq⟩
        · exact hc.1 ((toLowerStr_eq_empty (extname p)).mpr h)
        · exact hc.2 (by rw [heq, hlc e he]; exact he)
    · intro _; rfl
  · have hval : validateFileExtension cfg p = ⟨true, none⟩ := by
      unfold validateFileExtension
      rw [if_neg hc]
    rw [hval]
    constructor
    · constructor
      · intro _
        push_neg at hc
        by_cases hz : toLowerStr (extname p) = ""
        · exact Or.inl ((toLowerStr_eq_empty (extname p)).mp hz)
        · have hmem := hc hz
          exact Or.inr ⟨toLowerStr (extname p), hmem, (hlc _ hmem).symm⟩
      · intro _; rfl
    · intro h; exact absurd h (by simp)

/-- Witness for C5: `report.TXT` is accepted case-insensitively against
the configured lowercase `.txt`. -/
theorem validateFileExtension_correct_witness :
    (validateFileExtension (defaultConfig "/home/user") "report.TXT").isValid = true :=
  (validateFileExtension_correct (defaultConfig "/home/user") "report.TXT"
      (by decide)).1.mpr (Or.inr ⟨".txt", by decide, by decide⟩)

/-- Claim C6: `createSampleFile` defaults the omitted filename to
`sample.txt`, resolves the target against the working directory,
validates it with `validatePath` only — the hypothesis asks for nothing
about the extension — writes the fixed template once, and echoes the
written content in its success message. -/
theorem createSampleFile_correct (cfg : Config) (env : Env) (filename : Option String)
    (h : (validatePath cfg env.cwd
        (resolveAbs env.cwd (sampleNameOf filename))).isValid = true) :
    createSampleFileOp cfg env filename =
      (Except.ok (textResult
          ("サンプルファイル \"" ++ resolveAbs env.cwd (sampleNameOf filename) ++
            "\" を作成しました！\n\n内容:\n" ++ sampleContent env) false),
        [FsEffect.writeFileFs (resolveAbs env.cwd (sampleNameOf filename))
          (sampleContent env)])
    ∧ sampleNameOf none = "sample.txt" := by
  refine ⟨?_, rfl⟩
  simp only [createSampleFileOp, validatePath_normalizedPath,
    resolveAbs_of_resolveAbs, h]
  simp

/-- Witness for C6: a filename with the disallowed extension `.exe` is
still created (no extension check), under the configured sandbox. -/
theorem createSampleFile_correct_witness :
    (validateFileExtension (defaultConfig "/home/user")
        "/home/user/Documents/00_AI_Area/demo.exe").isValid = false
    ∧ (createSampleFileOp (defaultConfig "/home/user") envW
        (some "Documents/00_AI_Area/demo.exe")).2
      = [FsEffect.writeFileFs "/home/user/Documents/00_AI_Area/demo.exe"
          (sampleContent envW)] := by
  refine ⟨by decide, ?_⟩
  rw [(createSampleFile_correct (defaultConfig "/home/user") envW
      (some "Documents/00_AI_Area/demo.exe") (by decide)).1]
  decide

/-- Claim C7: `read_file` validates the path first, then the extension
of the resolved path, and any filesystem read failure surfaces as an
`isError: true` envelope carrying the underlying failure description —
the handler returns a value instead of crashing, so the loop can serve
the next request.  The second conjunct shows that when path validation
fails the outcome does not depend on the filesystem oracle at all
(validation strictly precedes I/O). -/
theorem readFile_error_handling (cfg : Config) (env : Env) :
    (∀ (fs : FsOracle) (fp msg : String),
        (validatePath cfg env.cwd fp).isValid = true →
        (validateFileExtension cfg
          (validatePath cfg env.cwd fp).normalizedPath).isValid = true →
        fs.readF (validatePath cfg env.cwd fp).normalizedPath = Except.error msg →
        handleCallTool cfg env fs "read_file" (some { filepath := some fp }) =
          (textResult ("Error: " ++ ("ファイルの読み込みに失敗: " ++ msg)) true, []))
    ∧ (∀ (fs fs' : FsOracle) (fp : String),
        (validatePath cfg env.cwd fp).isValid = false →
        readFileOp cfg env fs.readF (some fp) = readFileOp cfg env fs'.readF (some fp)) := by
  constructor
  · intro fs fp msg hv he hfs
    simp only [handleCallTool, dispatchTool, readFileOp, validatePathArg,
      hv, he, hfs]
    simp
  · intro fs fs' fp hv
    simp only [readFileOp, validatePathArg, hv]
    simp

/-- Witness for C7: a missing file under the sandbox yields the
not-found error envelope. -/
theorem readFile_error_handling_witness :
    handleCallTool (defaultConfig "/home/user") envW fsW "read_file"
        (some { filepath := some "/home/user/Documents/00_AI_Area/missing.txt" }) =
      (textResult
        "Error: ファイルの読み込みに失敗: Error: ENOENT: no such file or directory" true,
       []) := by
  have h := (readFile_error_handling (defaultConfig "/home/user") envW).1 fsW
    "/home/user/Documents/00_AI_Area/missing.txt"
    "Error: ENOENT: no such file or directory" (by decide) (by decide) rfl
  exact h.trans (by decide)

/-- Claim C8: an unrecognized tool name yields an `isError: true`
envelope naming the unknown tool, and, in general, every error the
switch raises — whatever the operation threw — is caught at the handler
boundary and converted into an error-flagged envelope, never a crash. -/
theorem dispatcher_error_handling (cfg : Config) (env : Env) (fs : FsOracle) :
    (∀ (name : String) (args : ToolArgs), name ∉ toolNames →
        handleCallTool cfg env fs name (some args) =
          (textResult ("Error: " ++ ("Unknown tool: " ++ name)) true, []))
    ∧ (∀ (name : String) (args : ToolArgs) (e : String) (effs : List FsEffect),
        dispatchTool cfg env fs name args = (Except.error e, effs) →
        handleCallTool cfg env fs name (some args) =
          (textResult ("Error: " ++ e) true, effs)) := by
  constructor
  · intro name args hname
    have h1 : ¬ name = "read_file" := by rintro rfl; exact hname (by decide)
    have h2 : ¬ name = "write_file" := by rintro rfl; exact hname (by decide)
    have h3 : ¬ name = "list_directory" := by rintro rfl; exact hname (by decide)
    have h4 : ¬ name = "get_system_info" := by rintro rfl; exact hname (by decide)
    have h5 : ¬ name = "create_sample_file" := by rintro rfl; exact hname (by decide)
    have h6 : ¬ name = "get_allowed_paths" := by rintro rfl; exact hname (by decide)
    simp only [handleCallTool, dispatchTool, if_neg h1, if_neg h2, if_neg h3,
      if_neg h4, if_neg h5, if_neg h6]
  · intro name args e effs hd
    simp only [handleCallTool, hd]

/-- Witness for C8: an unregistered tool name produces the unknown-tool
error envelope. -/
theorem dispatcher_error_handling_witness :
    handleCallTool (defaultConfig "/home/user") envW fsW "delete_everything"
        (some {}) =
      (textResult "Error: Unknown tool: delete_everything" true, []) := by
  have h := (dispatcher_error_handling (defaultConfig "/home/user") envW fsW).1
    "delete_everything" {} (by decide)
  exact h.trans (by decide)

/-- Claim C9: `get_system_info` touches no path and no validator — the
handler's answer is a fixed pure function of the host environment with
an empty effect trace and `isError: false` — and the derived quantities
are as specified: platform, architecture, release, hostname, CPU count
and directories pass through; uptime is the floor of seconds / 3600;
total and free memory are the nearest whole number of gigabytes
(`Math.round`, ties up). -/
theorem getSystemInfo_correct (env : Env) :
    (systemInfo env).platform = env.platform
    ∧ (systemInfo env).arch = env.arch
    ∧ (systemInfo env).release = env.release
    ∧ (systemInfo env).hostname = env.hostname
    ∧ (systemInfo env).cpus = env.cpusCount
    ∧ (systemInfo env).homeDir = env.homeDir
    ∧ (systemInfo env).tmpDir = env.tmpDir
    ∧ ((systemInfo env).uptimeHours * 3600 ≤ env.uptimeSeconds
        ∧ env.uptimeSeconds < ((systemInfo env).uptimeHours + 1) * 3600)
    ∧ (2 * (gib * (systemInfo env).totalGB) ≤ 2 * env.totalmem + gib
        ∧ 2 * env.totalmem < 2 * (gib * (systemInfo env).totalGB) + gib)
    ∧ (2 * (gib * (systemInfo env).freeGB) ≤ 2 * env.freemem + gib
        ∧ 2 * env.freemem < 2 * (gib * (systemInfo env).freeGB) + gib)
    ∧ (∀ (cfg : Config) (fs : FsOracle) (args : ToolArgs),
        handleCallTool cfg env fs "get_system_info" (some args) =
          (textResult ("システム情報:\n\n" ++ renderSystemInfo (systemInfo env)) false,
           [])) := by
  have hup : (systemInfo env).uptimeHours * 3600 ≤ env.uptimeSeconds
      ∧ env.uptimeSeconds < ((systemInfo env).uptimeHours + 1) * 3600 := by
    show env.uptimeSeconds / 3600 * 3600 ≤ env.uptimeSeconds
      ∧ env.uptimeSeconds < (env.uptimeSeconds / 3600 + 1) * 3600
    omega
  have hmem : ∀ (m : Nat), 2 * (gib * mathRoundDiv m gib) ≤ 2 * m + gib
      ∧ 2 * m < 2 * (gib * mathRoundDiv m gib) + gib := by
    intro m
    unfold mathRoundDiv gib
    omega
  refine ⟨rfl, rfl, rfl, rfl, rfl, rfl, rfl, hup, hmem env.totalmem,
    hmem env.freemem, ?_⟩
  intro cfg fs args
  rfl

/-- Claim C10: when `write_file`'s path validation or extension
validation fails, the operation returns an error having issued no
filesystem request: no directory creation and no write, because both
validations precede `fs.mkdir` and `fs.writeFile`. -/
theorem writeFile_denied_no_effects (cfg : Config) (env : Env) (fp c : String)
    (h : (validatePath cfg env.cwd fp).isValid = false ∨
        (validateFileExtension cfg
          (validatePath cfg env.cwd fp).normalizedPath).isValid = false) :
    (writeFileOp cfg env (some fp) (some c)).2 = []
    ∧ ∃ e, (writeFileOp cfg env (some fp) (some c)).1 = Except.error e := by
  cases hv : (validatePath cfg env.cwd fp).isValid with
  | false =>
    refine ⟨by simp [writeFileOp, validatePathArg, hv], ?_⟩
    exact ⟨"ファイルの書き込みに失敗: Error: " ++
        (validatePath cfg env.cwd fp).error.getD "undefined",
      by simp [writeFileOp, validatePathArg, hv]⟩
  | true =>
    have hext : (validateFileExtension cfg
        (validatePath cfg env.cwd fp).normalizedPath).isValid = false := by
      rcases h with h | h
      · rw [hv] at h; cases h
      · exact h
    refine ⟨by simp [writeFileOp, validatePathArg, hv, hext], ?_⟩
    exact ⟨"ファイルの書き込みに失敗: Error: " ++
        (validateFileExtension cfg
          (validatePath cfg env.cwd fp).normalizedPath).error.getD "undefined",
      by simp [writeFileOp, validatePathArg, hv, hext]⟩

/-- Witness for C10: a write outside the sandbox is rejected with no
filesystem request issued. -/
theorem writeFile_denied_no_effects_witness :
    (writeFileOp (defaultConfig "/home/user") envW
        (some "/home/user/notes.txt") (some "hello")).2 = []
    ∧ ∃ e, (writeFileOp (defaultConfig "/home/user") envW
        (some "/home/user/notes.txt") (some "hello")).1 = Except.error e :=
  writeFile_denied_no_effects _ _ _ _ (Or.inl (by decide))
